import Mathlib

/-!
WebP converter backend, `src/backend/index.js`.

A shallow embedding of the Express backend of the converter (the routes
`POST /convert-multi` and `DELETE /clean`, and the expressions they are built
from), followed by theorems about it.

External collaborators are modelled as follows.

* The file system is a `World`: the directories and the regular files that
  exist, keyed by the path strings the program uses (all relative to the
  working directory of the server). The host is a POSIX system: `/` is the
  only path separator.
* The clock, the codec (`sharp`) and the permissions to create a directory
  and to remove a file are oracles collected in an `Env`.
* The upload middleware (multer, configured without `preservePath`) hands
  over file names that are base names.
* HTTP responses are a status code and the JSON object passed to `res.json`.
-/

namespace WebpConverter

/-! ## JavaScript values and `parseInt` -/

/-- The values the expression `width ? parseInt(width) : null` can produce:
`null`, `NaN`, a finite integral Number (the sign of zero is not tracked), or an
infinity (`negative` tells which one). -/
inductive JSValue where
  | null
  | nan
  | num (v : Int)
  | inf (negative : Bool)
  deriving DecidableEq, Repr

/-- Code points ECMAScript treats as white space or line terminators
(`StrWhiteSpaceChar`), which `parseInt` skips at the start of its input. -/
def isWhiteSpace (c : Char) : Bool :=
  let n := c.toNat
  n == 0x09 || n == 0x0A || n == 0x0B || n == 0x0C || n == 0x0D || n == 0x20 ||
  n == 0xA0 || n == 0x1680 || (0x2000 ≤ n && n ≤ 0x200A) || n == 0x2028 ||
  n == 0x2029 || n == 0x202F || n == 0x205F || n == 0x3000 || n == 0xFEFF

/-- Value of a character read as a digit (`0-9`, `a-z`, `A-Z`), if it is one. -/
def digitValue (c : Char) : Option Nat :=
  let n := c.toNat
  if 48 ≤ n ∧ n ≤ 57 then some (n - 48)
  else if 97 ≤ n ∧ n ≤ 122 then some (n - 87)
  else if 65 ≤ n ∧ n ≤ 90 then some (n - 55)
  else none

/-- Value of a character as a digit of radix `R`, if it is one. -/
def radixDigit (R : Nat) (c : Char) : Option Nat :=
  match digitValue c with
  | some d => if d < R then some d else none
  | none => none

/-- The digits of the longest initial run of radix-`R` digits. -/
def takeDigits (R : Nat) : List Char → List Nat
  | [] => []
  | c :: cs =>
    match radixDigit R c with
    | some d => d :: takeDigits R cs
    | none => []

/-- The mathematical integer denoted by a digit list, most significant first. -/
def digitsValue (R : Nat) (ds : List Nat) : Nat :=
  ds.foldl (fun acc d => acc * R + d) 0

/-- Number of binary digits of `n` (with fuel). -/
def bitLengthAux : Nat → Nat → Nat
  | 0, _ => 0
  | fuel + 1, n => if n = 0 then 0 else bitLengthAux fuel (n / 2) + 1

/-- Number of binary digits of `n`. -/
def bitLength (n : Nat) : Nat := bitLengthAux n n

/-- The Number value of a non-negative mathematical integer: integers below
`2^53` are exact; larger ones are rounded to a 53-bit significand, nearest with
ties to even; `none` stands for an overflow to infinity (the rounded value
has more than 1024 binary digits). -/
def toNumber (n : Nat) : Option Nat :=
  if n < 2 ^ 53 then some n
  else
    let e := bitLength n - 53
    let q := n / 2 ^ e
    let r := n % 2 ^ e
    let half := 2 ^ (e - 1)
    let q1 := if half < r ∨ (r = half ∧ q % 2 = 1) then q + 1 else q
    if 1024 < bitLength (q1 * 2 ^ e) then none else some (q1 * 2 ^ e)

/-- Removes an optional leading sign; the flag tells whether it was `-`. -/
def stripSign : List Char → Bool × List Char
  | c :: cs => if c = '-' then (true, cs) else if c = '+' then (false, cs) else (false, c :: cs)
  | [] => (false, [])

/-- Chooses the radix when none is given: 16 after a leading `0x`/`0X` (which is
removed), 10 otherwise. -/
def chooseRadix : List Char → Nat × List Char
  | a :: b :: cs =>
    if a = '0' ∧ (b = 'x' ∨ b = 'X') then (16, cs) else (10, a :: b :: cs)
  | cs => (10, cs)

/-- ECMAScript `parseInt(string)` with no radix argument: leading white space
is skipped, then a sign, then `0x`/`0X`; the longest run of digits of the radix
is read; without any digit the result is `NaN`, otherwise the Number value of
the integer read. (Beyond 20 significant digits ECMAScript lets an engine
approximate the integer; the exact one is taken here.) -/
def parseInt (s : String) : JSValue :=
  let trimmed := s.data.dropWhile isWhiteSpace
  let (negative, unsigned) := stripSign trimmed
  let (R, body) := chooseRadix unsigned
  let Z := takeDigits R body
  if Z = [] then JSValue.nan
  else
    match toNumber (digitsValue R Z) with
    | none => JSValue.inf negative
    | some v => JSValue.num (if negative then -(v : Int) else (v : Int))

/-- The expression `field ? parseInt(field) : null` of the handlers, for a form
field that is missing (`none`) or a string; a string is truthy unless empty. -/
def dimension (field : Option String) : JSValue :=
  match field with
  | none => JSValue.null
  | some s => if s = "" then JSValue.null else parseInt s

/-! ## Requests, responses, environment and file system -/

/-- Characters at which the upload middleware cuts the file name sent by the
client, keeping what follows the last of them: `/` and `\`. -/
def isNameSeparator (c : Char) : Bool :=
  c.toNat == 0x2F || c.toNat == 0x5C

/-- One element of `req.files` as multer hands it over: the path of the
temporary file and the name the client gave. As `upload` is configured without
`preservePath`, that name is a base name: it contains neither `/` nor `\`. -/
structure UploadedFile where
  path : String
  originalname : String
  basename : originalname.data.all (fun c => !isNameSeparator c) = true
  deriving DecidableEq, Repr

/-- The parts of the request the handlers read: `req.files` and the form
fields `width`, `height` and `crop` of `req.body` (`none` when missing). -/
structure Request where
  files : List UploadedFile
  width : Option String
  height : Option String
  crop : Option String
  deriving DecidableEq, Repr

/-- JSON values occurring in the responses. -/
inductive Json where
  | bool (b : Bool)
  | str (s : String)
  | strs (l : List String)
  deriving DecidableEq, Repr

/-- An HTTP response: status code and the fields of the JSON object sent. -/
structure Response where
  status : Nat
  body : List (String × Json)
  deriving DecidableEq, Repr

/-- One invocation of the codec pipeline
`sharp(input).resize({width, height, fit}).webp({quality: 90}).toFile(output)`. -/
structure CodecCall where
  input : String
  width : JSValue
  height : JSValue
  fit : String
  output : String
  deriving DecidableEq, Repr

/-- The environment of the server: `now k` is the reading of the `k`-th call of
`Date.now()` made by a handler (counted from 0), `sharp c` tells whether the
codec pipeline `c` resolves, `mkdirOk d` whether the operating system lets the
directory `d` be created, `unlinkOk p` whether it lets the regular file `p` be
removed. -/
structure Env where
  now : Nat → Nat
  sharp : CodecCall → Bool
  mkdirOk : String → Bool
  unlinkOk : String → Bool

/-- The file system as the server sees it, with paths relative to its working
directory: existing directories, existing regular files, and (as a record of
what happened) the codec invocations made so far. -/
structure World where
  dirs : List String
  files : List String
  calls : List CodecCall
  deriving DecidableEq, Repr

/-- The constant `port`. -/
def port : Nat := 5009

/-- The call `fs.mkdirSync(d, { recursive: true })` for a directory `d` of the
working directory: it throws (`none`) when `d` is a regular file; it does
nothing when the directory exists; otherwise it creates the directory, or
throws when that is not permitted. -/
def mkdirSync (env : Env) (w : World) (d : String) : Option World :=
  if d ∈ w.files then none
  else if d ∈ w.dirs then some w
  else if env.mkdirOk d = true then some { w with dirs := w.dirs ++ [d] }
  else none

/-- The call `fs.existsSync(p)`. -/
def existsSync (w : World) (p : String) : Bool :=
  decide (p ∈ w.dirs) || decide (p ∈ w.files)

/-- The call `fs.unlinkSync(p)`: removes the regular file `p`; `none` when it
throws (no such file, or removal not permitted). -/
def unlinkSync (env : Env) (w : World) (p : String) : Option World :=
  if p ∈ w.files ∧ env.unlinkOk p = true then some { w with files := w.files.erase p }
  else none

/-- Runs the codec pipeline `c`, recording the invocation: it resolves when the
input file is there and the codec accepts the call, and then the output file
exists; otherwise it throws or rejects (`false`) and writes nothing. -/
def sharpToFile (env : Env) (w : World) (c : CodecCall) : Bool × World :=
  if c.input ∈ w.files ∧ env.sharp c = true then
    (true, { w with
      files := if c.output ∈ w.files then w.files else w.files ++ [c.output],
      calls := w.calls ++ [c] })
  else (false, { w with calls := w.calls ++ [c] })

/-- Removes the leading part `pre` from `s`, if `s` starts with it. -/
def dropLeading : List Char → List Char → Option (List Char)
  | [], s => some s
  | _ :: _, [] => none
  | a :: pre, b :: s => if a = b then dropLeading pre s else none

/-- The path separator of the host: `/`. -/
def isSeparator (c : Char) : Bool :=
  c.toNat == 0x2F

/-- The name under which `p` is listed in directory `dir`, when `p` lies
directly in it: `p` is `dir/name` for a non-empty `name` without separators
other than the special names `.` and `..`. -/
def entryName (dir p : String) : Option String :=
  match dropLeading (dir ++ "/").data p.data with
  | some r =>
    if r ≠ [] ∧ r ≠ ['.'] ∧ r ≠ ['.', '.'] ∧ r.all (fun c => !isSeparator c) = true then
      some (String.mk r)
    else none
  | none => none

/-- The path `p` lies below the directory `dir`: it starts with `dir/`. -/
def isBelow (dir p : String) : Bool :=
  (dropLeading (dir ++ "/").data p.data).isSome

/-- Order of two names by their code points, the first difference deciding. -/
def nameLe : List Char → List Char → Bool
  | [], _ => true
  | _ :: _, [] => false
  | a :: as, b :: bs => decide (a.toNat < b.toNat) || (a.toNat == b.toNat && nameLe as bs)

/-- A listing put in the order in which the host returns it: sorted by name. -/
def sortNames (names : List String) : List String :=
  names.insertionSort (fun a b => nameLe a.data b.data = true)

/-- The call `fs.readdirSync(dir)`: the names of the objects directly in `dir`,
regular files and directories alike, sorted by name; `none` when it throws
because `dir` is not a directory. -/
def readdirSync (w : World) (dir : String) : Option (List String) :=
  if dir ∈ w.dirs then some (sortNames ((w.files ++ w.dirs).filterMap (entryName dir)))
  else none

/-- The call `path.join(dir, file)` for a directory and the name of an entry. -/
def pathJoin (dir file : String) : String :=
  dir ++ "/" ++ file

/-! ## `POST /convert-multi` -/

/-- The template `converted/${Date.now()}-${file.originalname}.webp`. -/
def outputPath (now : Nat) (originalname : String) : String :=
  "converted/" ++ toString now ++ "-" ++ originalname ++ ".webp"

/-- The template `http://localhost:${port}/${outputPath}`. -/
def outputUrl (outputPath : String) : String :=
  "http://localhost:" ++ toString port ++ "/" ++ outputPath

/-- The expression `crop || "cover"`. -/
def fit (crop : Option String) : String :=
  match crop with
  | none => "cover"
  | some s => if s = "" then "cover" else s

/-- The codec invocation made for `file` when the clock reads `now`. -/
def codecCall (req : Request) (now : Nat) (file : UploadedFile) : CodecCall :=
  { input := file.path
    width := dimension req.width
    height := dimension req.height
    fit := fit req.crop
    output := outputPath now file.originalname }

/-- The loop `for (const file of req.files) { ... }`, entered at its `k`-th
iteration with the remaining files and the `urls` pushed so far. The result is
`some urls` when the loop ends normally and `none` when an iteration throws;
the world returned is the one reached at that point. -/
def convertMultiLoop (env : Env) (req : Request) :
    Nat → List UploadedFile → List String → World → Option (List String) × World
  | _, [], urls, w => (some urls, w)
  | k, file :: rest, urls, w =>
    let inputPath := file.path
    let outputPath := outputPath (env.now k) file.originalname
    match sharpToFile env w (codecCall req (env.now k) file) with
    | (false, w1) => (none, w1)
    | (true, w1) =>
      match unlinkSync env w1 inputPath with
      | none => (none, w1)
      | some w2 => convertMultiLoop env req (k + 1) rest (urls ++ [outputUrl outputPath]) w2

/-- The response `res.json({ success: true, urls })`. -/
def multiSuccess (urls : List String) : Response :=
  { status := 200, body := [("success", Json.bool true), ("urls", Json.strs urls)] }

/-- The response `res.status(500).json({ error: "Multi conversion failed" })`. -/
def multiFailure : Response :=
  { status := 500, body := [("error", Json.str "Multi conversion failed")] }

/-- The handler of `POST /convert-multi`: the response sent and the world left.
An exception thrown by `fs.mkdirSync` or inside the loop is caught and answered
by the error response. -/
def convertMulti (env : Env) (w : World) (req : Request) : Response × World :=
  match mkdirSync env w "converted" with
  | none => (multiFailure, w)
  | some w0 =>
    match convertMultiLoop env req 0 req.files [] w0 with
    | (some urls, w1) => (multiSuccess urls, w1)
    | (none, w1) => (multiFailure, w1)

/-! ## `DELETE /clean` -/

/-- The loop `fs.readdirSync(dir).forEach((file) => fs.unlinkSync(path.join(dir, file)))`
over the listing taken; `false` when a removal throws, which ends the loop. -/
def unlinkAll (env : Env) (dir : String) : List String → World → Bool × World
  | [], w => (true, w)
  | file :: rest, w =>
    match unlinkSync env w (pathJoin dir file) with
    | none => (false, w)
    | some w1 => unlinkAll env dir rest w1

/-- The handler of `DELETE /clean`. The directory
`path.join(process.cwd(), "converted")` is the directory `converted` of the
world, whose paths are relative to the working directory. -/
def clean (env : Env) (w : World) : Response × World :=
  let dir := "converted"
  if !existsSync w dir then
    ({ status := 200,
       body := [("success", Json.bool true), ("message", Json.str "Nothing to clean")] }, w)
  else
    match readdirSync w dir with
    | none =>
      ({ status := 500,
         body := [("success", Json.bool false), ("error", Json.str "Failed to clean folder")] }, w)
    | some listing =>
      match unlinkAll env dir listing w with
      | (true, w1) =>
        ({ status := 200,
           body := [("success", Json.bool true),
                    ("message", Json.str "Converted folder cleaned")] }, w1)
      | (false, w1) =>
        ({ status := 500,
           body := [("success", Json.bool false),
                    ("error", Json.str "Failed to clean folder")] }, w1)

/-! ## Vocabulary of the statements -/

/-- The files of a request are staged in the world: multer stored each of them
under a path of its own, the temporary file is there and may be removed. -/
def Staged (env : Env) (w : World) (files : List UploadedFile) : Prop :=
  (files.map (fun f => f.path)).Nodup ∧
    ∀ f ∈ files, f.path ∈ w.files ∧ env.unlinkOk f.path = true

/-- The store is ready: `converted` is no regular file, and the directory exists
or may be created. -/
def StoreReady (env : Env) (w : World) : Prop :=
  "converted" ∉ w.files ∧ ("converted" ∈ w.dirs ∨ env.mkdirOk "converted" = true)

/-- The store is flat: the directory `converted` exists, no directory lies below
it, and every regular file below it lies directly in it. -/
def FlatStore (w : World) : Prop :=
  "converted" ∈ w.dirs ∧ (∀ d ∈ w.dirs, isBelow "converted" d = false) ∧
    ∀ p ∈ w.files, isBelow "converted" p = true → entryName "converted" p ≠ none

/-- The codec pipeline resolves for each of `files`, when they are handled from
iteration `k` on. -/
def AllConvertible (env : Env) (req : Request) (k : Nat) (files : List UploadedFile) : Prop :=
  ∀ (i : Nat) (f : UploadedFile), files[i]? = some f →
    env.sharp (codecCall req (env.now (k + i)) f) = true

/-- The locations expected for `files` handled from iteration `k` on: one per
file, in order, each built from the clock reading of its iteration and its
`originalname`. -/
def expectedUrls (env : Env) : Nat → List UploadedFile → List String
  | _, [] => []
  | k, f :: rest =>
    outputUrl (outputPath (env.now k) f.originalname) :: expectedUrls env (k + 1) rest

/-- A dimension that is an integer less than or equal to zero. -/
def isNonPositive : JSValue → Bool
  | JSValue.num v => decide (v ≤ 0)
  | _ => false

/-- The codec invocations expected for `files` handled from iteration `k` on. -/
def expectedCalls (env : Env) (req : Request) : Nat → List UploadedFile → List CodecCall
  | _, [] => []
  | k, f :: rest => codecCall req (env.now k) f :: expectedCalls env req (k + 1) rest

/-! ## Example environments, worlds and requests -/

/-- The resize options sharp accepts for a dimension: absent, or a positive
integer. -/
def acceptsDimension : JSValue → Bool
  | JSValue.null => true
  | JSValue.num v => decide (0 < v)
  | _ => false

/-- An environment whose clock advances by one millisecond per reading, whose
codec rejects bad dimensions and the corrupt upload `uploads/bad`, and where
every removal is permitted. -/
def strictEnv : Env :=
  { now := fun k => 1700000000000 + k
    sharp := fun c => acceptsDimension c.width && acceptsDimension c.height &&
      (c.input != "uploads/bad")
    mkdirOk := fun _ => true
    unlinkOk := fun _ => true }

/-- An environment whose clock returns the same millisecond at every reading
and whose codec accepts every call. -/
def sameMillisecondEnv : Env :=
  { now := fun _ => 1700000000000
    sharp := fun _ => true
    mkdirOk := fun _ => true
    unlinkOk := fun _ => true }

/-- An environment whose codec accepts every call and writes its output, but
where the temporary uploads cannot be removed. -/
def lockedUploadsEnv : Env :=
  { now := fun k => 1700000000000 + k
    sharp := fun _ => true
    mkdirOk := fun _ => true
    unlinkOk := fun _ => false }

/-- A world in which multer has staged three uploads and nothing has been
converted yet. -/
def stagedWorld : World :=
  { dirs := ["uploads"], files := ["uploads/a", "uploads/bad", "uploads/c"], calls := [] }

/-- A world with a store holding two artifacts next to a staged upload. -/
def filledWorld : World :=
  { dirs := ["uploads", "converted"]
    files := ["converted/1700000000000-a.png.webp", "uploads/c",
      "converted/1700000000001-b.png.webp"]
    calls := [] }

/-- A world whose store exists and is empty. -/
def emptyStoreWorld : World :=
  { dirs := ["uploads", "converted"], files := ["uploads/c"], calls := [] }

/-- A request with the form fields the client sends and the given files. -/
def batchOf (files : List UploadedFile) (width : String) : Request :=
  { files := files, width := some width, height := some "", crop := some "cover" }

/-- The staged upload `uploads/a`, named `a.png` by the client. -/
def fileA : UploadedFile :=
  { path := "uploads/a", originalname := "a.png", basename := by decide }

/-- The staged upload `uploads/bad`, a corrupt image. -/
def fileBad : UploadedFile :=
  { path := "uploads/bad", originalname := "bad.png", basename := by decide }

/-- The staged upload `uploads/c`, named `c.png` by the client. -/
def fileC : UploadedFile :=
  { path := "uploads/c", originalname := "c.png", basename := by decide }

/-- The staged upload `uploads/c`, named `a.png` by the client as well. -/
def fileA2 : UploadedFile :=
  { path := "uploads/c", originalname := "a.png", basename := by decide }

/-! ## Decimal representations -/

theorem digitChar_facts (d : Nat) (h : d < 10) :
    isWhiteSpace (Nat.digitChar d) = false ∧ isSeparator (Nat.digitChar d) = false ∧
    radixDigit 10 (Nat.digitChar d) = some d ∧ Nat.digitChar d ≠ '-' ∧
    Nat.digitChar d ≠ '+' ∧ Nat.digitChar d ≠ 'x' ∧ Nat.digitChar d ≠ 'X' ∧
    Nat.digitChar d ≠ '.' ∧ isNameSeparator (Nat.digitChar d) = false := by
  interval_cases d <;> decide

theorem digitsValue_snoc (R : Nat) (ds : List Nat) (d : Nat) :
    digitsValue R (ds ++ [d]) = digitsValue R ds * R + d := by
  simp [digitsValue, List.foldl_append]

/-- With enough fuel, `Nat.toDigitsCore` puts in front of the accumulator the
characters of a non-empty list of decimal digits whose value is the number. -/
theorem toDigitsCore_spec (fuel : Nat) :
    ∀ (n : Nat) (acc : List Char), n < fuel →
      ∃ ds : List Nat, ds ≠ [] ∧ (∀ d ∈ ds, d < 10) ∧ digitsValue 10 ds = n ∧
        Nat.toDigitsCore 10 fuel n acc = ds.map Nat.digitChar ++ acc := by
  induction fuel with
  | zero => intro n acc h; omega
  | succ fuel ih =>
    intro n acc h
    by_cases h0 : n / 10 = 0
    · refine ⟨[n % 10], by simp, ?_, ?_, ?_⟩
      · intro d hd
        simp at hd
        omega
      · simp [digitsValue]
        omega
      · simp [Nat.toDigitsCore, h0]
    · obtain ⟨ds, hne, hlt, hval, heq⟩ := ih (n / 10) (Nat.digitChar (n % 10) :: acc) (by omega)
      refine ⟨ds ++ [n % 10], by simp, ?_, ?_, ?_⟩
      · intro d hd
        rcases List.mem_append.1 hd with hd | hd
        · exact hlt d hd
        · simp at hd
          omega
      · rw [digitsValue_snoc, hval]
        omega
      · simp [Nat.toDigitsCore, h0, heq]

/-- The decimal representation of `n` is the image of a non-empty list of
decimal digits whose value is `n`. -/
theorem toString_spec (n : Nat) :
    ∃ ds : List Nat, ds ≠ [] ∧ (∀ d ∈ ds, d < 10) ∧ digitsValue 10 ds = n ∧
      (toString n).data = ds.map Nat.digitChar := by
  obtain ⟨ds, hne, hlt, hval, heq⟩ := toDigitsCore_spec (n + 1) n [] (by omega)
  refine ⟨ds, hne, hlt, hval, ?_⟩
  show (Nat.repr n).data = _
  simp [Nat.repr, Nat.toDigits, heq, List.asString]

theorem takeDigits_map_digitChar (ds : List Nat) (h : ∀ d ∈ ds, d < 10) :
    takeDigits 10 (ds.map Nat.digitChar) = ds := by
  induction ds with
  | nil => rfl
  | cons d ds ih =>
    have hd := (digitChar_facts d (h d (by simp))).2.2.1
    simp [takeDigits, hd, ih (fun x hx => h x (by simp [hx]))]

/-- Reading back the decimal representation gives the number. -/
theorem digits_roundtrip (n : Nat) :
    digitsValue 10 (takeDigits 10 (toString n).data) = n := by
  obtain ⟨ds, _, hlt, hval, heq⟩ := toString_spec n
  rw [heq, takeDigits_map_digitChar ds hlt, hval]

theorem toString_injective (a b : Nat) (h : toString a = toString b) : a = b := by
  have ha := digits_roundtrip a
  rw [h, digits_roundtrip b] at ha
  exact ha.symm

theorem toString_no_nameSeparator (n : Nat) :
    ∀ c ∈ (toString n).data, isNameSeparator c = false := by
  obtain ⟨ds, _, hlt, _, heq⟩ := toString_spec n
  intro c hc
  rw [heq] at hc
  obtain ⟨d, hd, rfl⟩ := List.mem_map.1 hc
  exact (digitChar_facts d (hlt d hd)).2.2.2.2.2.2.2.2

theorem toString_no_separator (n : Nat) :
    ∀ c ∈ (toString n).data, isSeparator c = false := by
  obtain ⟨ds, _, hlt, _, heq⟩ := toString_spec n
  intro c hc
  rw [heq] at hc
  obtain ⟨d, hd, rfl⟩ := List.mem_map.1 hc
  exact (digitChar_facts d (hlt d hd)).2.1

theorem toNumber_exact (n : Nat) (h : n < 2 ^ 53) : toNumber n = some n := by
  unfold toNumber
  rw [if_pos h]

/-- `parseInt` reads the decimal representation of a number back, up to the
rounding of `toNumber`. -/
theorem parseInt_toString (n : Nat) :
    parseInt (toString n) =
      match toNumber n with
      | none => JSValue.inf false
      | some v => JSValue.num (v : Int) := by
  obtain ⟨ds, hne, hlt, hval, heq⟩ := toString_spec n
  have htake := takeDigits_map_digitChar ds hlt
  cases ds with
  | nil => exact absurd rfl hne
  | cons d ds =>
    obtain ⟨hws, -, -, hminus, hplus, -, -, -, -⟩ := digitChar_facts d (hlt d (by simp))
    have hstrip : chooseRadix (Nat.digitChar d :: List.map Nat.digitChar ds) =
        (10, Nat.digitChar d :: List.map Nat.digitChar ds) := by
      cases ds with
      | nil => rfl
      | cons d2 ds2 =>
        obtain ⟨-, -, -, -, -, hx, hX, -, -⟩ := digitChar_facts d2 (hlt d2 (by simp))
        simp [chooseRadix, hx, hX]
    have htake2 : takeDigits 10 (Nat.digitChar d :: List.map Nat.digitChar ds) = d :: ds := htake
    have hsign : stripSign (Nat.digitChar d :: List.map Nat.digitChar ds) =
        (false, Nat.digitChar d :: List.map Nat.digitChar ds) := by
      simp [stripSign, hminus, hplus]
    have hdrop : List.dropWhile isWhiteSpace (Nat.digitChar d :: List.map Nat.digitChar ds) =
        Nat.digitChar d :: List.map Nat.digitChar ds := by
      simp [List.dropWhile_cons, hws]
    simp only [parseInt, heq, List.map_cons, hdrop, hsign, hstrip, htake2, hval]
    simp
theorem dropLeading_append (pre r : List Char) : dropLeading pre (pre ++ r) = some r := by
  induction pre with
  | nil => rfl
  | cons a pre ih => simp [dropLeading, ih]

theorem dropLeading_eq_some (pre s r : List Char) (h : dropLeading pre s = some r) :
    s = pre ++ r := by
  induction pre generalizing s with
  | nil =>
    simp [dropLeading] at h
    simp [h]
  | cons a pre ih =>
    cases s with
    | nil => simp [dropLeading] at h
    | cons b s =>
      by_cases hab : a = b
      · subst hab
        simp [dropLeading] at h
        simp [ih s h]
      · simp [dropLeading, hab] at h

/-- An entry listed under a name is the file `dir/name`. -/
theorem pathJoin_entryName (dir p name : String) (h : entryName dir p = some name) :
    pathJoin dir name = p := by
  unfold entryName at h
  cases hs : dropLeading (dir ++ "/").data p.data with
  | none => rw [hs] at h; exact absurd h (by simp)
  | some r =>
    rw [hs] at h
    dsimp only at h
    split at h
    · have hp := dropLeading_eq_some _ _ _ hs
      injection h with h
      subst h
      apply String.ext
      simp [pathJoin, hp]
    · exact absurd h (by simp)

theorem outputPath_data (now : Nat) (name : String) :
    (outputPath now name).data =
      ("converted" ++ "/").data ++ ((toString now).data ++ '-' :: (name.data ++ ".webp".data)) := by
  simp [outputPath, String.data_append]

theorem outputPath_entryName (now : Nat) (name : String)
    (h : ∀ c ∈ name.data, isSeparator c = false) :
    entryName "converted" (outputPath now name) =
      some (toString now ++ "-" ++ name ++ ".webp") := by
  unfold entryName
  rw [outputPath_data, dropLeading_append]
  have hall : ((toString now).data ++ '-' :: (name.data ++ ".webp".data)).all
      (fun c => !isSeparator c) = true := by
    rw [List.all_eq_true]
    intro c hc
    rcases List.mem_append.1 hc with hc | hc
    · simp [toString_no_separator now c hc]
    rcases List.mem_cons.1 hc with hc | hc
    · subst hc; decide
    rcases List.mem_append.1 hc with hc | hc
    · simp [h c hc]
    · have hmem : ∀ x ∈ ".webp".data, (!isSeparator x) = true := by decide
      exact hmem c hc
  have hlen : 6 ≤ ((toString now).data ++ '-' :: (name.data ++ ".webp".data)).length := by
    simp only [List.length_append, List.length_cons]
    have : ".webp".data.length = 5 := by decide
    omega
  have h1 : ((toString now).data ++ '-' :: (name.data ++ ".webp".data)) ≠ [] := by
    intro hc; rw [hc] at hlen; simp at hlen
  have h2 : ((toString now).data ++ '-' :: (name.data ++ ".webp".data)) ≠ ['.'] := by
    intro hc; rw [hc] at hlen; simp at hlen
  have h3 : ((toString now).data ++ '-' :: (name.data ++ ".webp".data)) ≠ ['.', '.'] := by
    intro hc; rw [hc] at hlen; simp at hlen
  simp only [h1, h2, h3, hall, ne_eq, not_false_eq_true, and_self, if_true]
  congr 1
  apply String.ext
  simp [String.data_append]

theorem outputPath_injective (t₁ t₂ : Nat) (name : String)
    (h : outputPath t₁ name = outputPath t₂ name) : t₁ = t₂ := by
  have hd := congrArg String.data h
  rw [outputPath_data, outputPath_data] at hd
  have hd2 := List.append_cancel_left hd
  have hd3 : (toString t₁).data = (toString t₂).data := by
    have : (toString t₁).data ++ ('-' :: (name.data ++ ".webp".data)) =
        (toString t₂).data ++ ('-' :: (name.data ++ ".webp".data)) := hd2
    exact List.append_cancel_right this
  exact toString_injective t₁ t₂ (String.ext hd3)

/-- A base name contains no path separator. -/
theorem isSeparator_of_isNameSeparator (c : Char) (h : isNameSeparator c = false) :
    isSeparator c = false := by
  simp only [isNameSeparator, Bool.or_eq_false_iff] at h
  exact h.1

theorem originalname_no_separator (file : UploadedFile) :
    ∀ c ∈ file.originalname.data, isSeparator c = false := by
  intro c hc
  have h := List.all_eq_true.1 file.basename c hc
  apply isSeparator_of_isNameSeparator
  simpa using h

/-- The name given to the output of a file has neither `/` nor `\` in it. -/
theorem outputName_no_nameSeparator (now : Nat) (file : UploadedFile) :
    ∀ c ∈ (toString now ++ "-" ++ file.originalname ++ ".webp").data,
      isNameSeparator c = false := by
  intro c hc
  simp only [String.data_append, List.mem_append] at hc
  rcases hc with ((hc | hc) | hc) | hc
  · exact toString_no_nameSeparator now c hc
  · have hmem : ∀ x ∈ "-".data, isNameSeparator x = false := by decide
    exact hmem c hc
  · have h := List.all_eq_true.1 file.basename c hc
    simpa using h
  · have hmem : ∀ x ∈ ".webp".data, isNameSeparator x = false := by decide
    exact hmem c hc

theorem entryName_eq_none_of_not_isBelow (dir p : String) (h : isBelow dir p = false) :
    entryName dir p = none := by
  unfold isBelow at h
  unfold entryName
  cases hs : dropLeading (dir ++ "/").data p.data with
  | none => rfl
  | some r => rw [hs] at h; simp at h

theorem isBelow_of_entryName (dir p name : String) (h : entryName dir p = some name) :
    isBelow dir p = true := by
  cases hb : isBelow dir p with
  | true => rfl
  | false =>
    rw [entryName_eq_none_of_not_isBelow dir p hb] at h
    exact absurd h (by simp)
/-! ## The loop of `POST /convert-multi` -/

theorem mkdirSync_some (env : Env) (w w0 : World) (d : String)
    (h : mkdirSync env w d = some w0) :
    w0.files = w.files ∧ w0.calls = w.calls ∧ d ∈ w0.dirs := by
  unfold mkdirSync at h
  split at h
  · exact absurd h (by simp)
  · split at h
    · injection h with h
      subst h
      exact ⟨rfl, rfl, by assumption⟩
    · split at h
      · injection h with h
        subst h
        exact ⟨rfl, rfl, by simp⟩
      · exact absurd h (by simp)

theorem mkdirSync_ready (env : Env) (w : World) (h : StoreReady env w) :
    ∃ w0, mkdirSync env w "converted" = some w0 := by
  obtain ⟨hfile, hdir⟩ := h
  unfold mkdirSync
  rw [if_neg hfile]
  by_cases hd : "converted" ∈ w.dirs
  · exact ⟨w, by rw [if_pos hd]⟩
  · rcases hdir with hdir | hdir
    · exact absurd hdir hd
    · exact ⟨_, by rw [if_neg hd, if_pos hdir]⟩

theorem expectedUrls_length (env : Env) (files : List UploadedFile) :
    ∀ k, (expectedUrls env k files).length = files.length := by
  induction files with
  | nil => intro k; rfl
  | cons f rest ih => intro k; simp [expectedUrls, ih]

theorem expectedUrls_getElem? (env : Env) (files : List UploadedFile) :
    ∀ (k i : Nat) (f : UploadedFile), files[i]? = some f →
      (expectedUrls env k files)[i]? =
        some (outputUrl (outputPath (env.now (k + i)) f.originalname)) := by
  induction files with
  | nil => intro k i f h; simp at h
  | cons g rest ih =>
    intro k i f h
    cases i with
    | zero =>
      simp at h
      subst h
      simp [expectedUrls]
    | succ i =>
      simp at h
      have := ih (k + 1) i f h
      simp only [expectedUrls, List.getElem?_cons_succ, this]
      congr 4
      omega

/-- One iteration whose codec call resolves on a staged file: the output is
written, the temporary file removed, and the loop goes on. -/
theorem convertMultiLoop_cons_ok (env : Env) (req : Request) (k : Nat) (f : UploadedFile)
    (rest : List UploadedFile) (urls : List String) (w : World)
    (hin : f.path ∈ w.files) (hrm : env.unlinkOk f.path = true)
    (hok : env.sharp (codecCall req (env.now k) f) = true) :
    convertMultiLoop env req k (f :: rest) urls w =
      convertMultiLoop env req (k + 1) rest
        (urls ++ [outputUrl (outputPath (env.now k) f.originalname)])
        { dirs := w.dirs
          files := (if (outputPath (env.now k) f.originalname) ∈ w.files then w.files
            else w.files ++ [outputPath (env.now k) f.originalname]).erase f.path
          calls := w.calls ++ [codecCall req (env.now k) f] } := by
  have hin2 : f.path ∈ (if (outputPath (env.now k) f.originalname) ∈ w.files then w.files
      else w.files ++ [outputPath (env.now k) f.originalname]) := by
    split
    · exact hin
    · exact List.mem_append_left _ hin
  have hcin : (codecCall req (env.now k) f).input ∈ w.files := hin
  simp only [convertMultiLoop, sharpToFile, hcin, hok, and_self, if_true, unlinkSync]
  simp only [codecCall, hin2, hrm, and_self, if_true]

/-- An iteration whose codec call fails ends the loop by an exception; only
the invocation is recorded. -/
theorem convertMultiLoop_cons_fail (env : Env) (req : Request) (k : Nat) (f : UploadedFile)
    (rest : List UploadedFile) (urls : List String) (w : World)
    (hfail : env.sharp (codecCall req (env.now k) f) = false) :
    convertMultiLoop env req k (f :: rest) urls w =
      (none, { w with calls := w.calls ++ [codecCall req (env.now k) f] }) := by
  simp [convertMultiLoop, sharpToFile, hfail]

/-- The loop over staged files whose codec calls all resolve ends normally with
the expected locations. -/
theorem convertMultiLoop_valid (env : Env) (req : Request) (files : List UploadedFile) :
    ∀ (k : Nat) (urls : List String) (w : World), Staged env w files →
      AllConvertible env req k files →
      ∃ w1, convertMultiLoop env req k files urls w =
          (some (urls ++ expectedUrls env k files), w1) ∧
        w1.calls = w.calls ++ expectedCalls env req k files := by
  induction files with
  | nil =>
    intro k urls w _ _
    exact ⟨w, by simp [convertMultiLoop, expectedUrls], by simp [expectedCalls]⟩
  | cons f rest ih =>
    intro k urls w hst hconv
    obtain ⟨hnd, hmem⟩ := hst
    have hf := hmem f (by simp)
    have hok := hconv 0 f (by simp)
    rw [Nat.add_zero] at hok
    rw [convertMultiLoop_cons_ok env req k f rest urls w hf.1 hf.2 hok]
    have hnd2 : (f.path :: rest.map (fun g => g.path)).Nodup := hnd
    obtain ⟨hnotin, hnd3⟩ := List.nodup_cons.1 hnd2
    have hst2 : Staged env
        { dirs := w.dirs
          files := (if (outputPath (env.now k) f.originalname) ∈ w.files then w.files
            else w.files ++ [outputPath (env.now k) f.originalname]).erase f.path
          calls := w.calls ++ [codecCall req (env.now k) f] } rest := by
      refine ⟨hnd3, ?_⟩
      intro g hg
      have hgm := hmem g (by simp [hg])
      refine ⟨?_, hgm.2⟩
      have hne : g.path ≠ f.path := by
        intro heq
        exact hnotin (heq ▸ List.mem_map_of_mem (fun g => g.path) hg)
      show g.path ∈ List.erase _ f.path
      rw [List.mem_erase_of_ne hne]
      split
      · exact hgm.1
      · exact List.mem_append_left _ hgm.1
    have hconv2 : AllConvertible env req (k + 1) rest := by
      intro i g hg
      have := hconv (i + 1) g (by simpa using hg)
      rw [show k + 1 + i = k + (i + 1) by omega]
      exact this
    obtain ⟨w1, hw1, hc1⟩ := ih (k + 1) _ _ hst2 hconv2
    exact ⟨w1, by rw [hw1]; simp [expectedUrls], by rw [hc1]; simp [expectedCalls]⟩

theorem expectedCalls_getElem? (env : Env) (req : Request) (files : List UploadedFile) :
    ∀ (k i : Nat) (f : UploadedFile), files[i]? = some f →
      (expectedCalls env req k files)[i]? = some (codecCall req (env.now (k + i)) f) := by
  induction files with
  | nil => intro k i f h; simp at h
  | cons g rest ih =>
    intro k i f h
    cases i with
    | zero =>
      simp at h
      subst h
      simp [expectedCalls]
    | succ i =>
      simp at h
      have := ih (k + 1) i f h
      simp only [expectedCalls, List.getElem?_cons_succ, this]
      congr 3
      omega

/-- The loop over a list followed by another: the second part is entered, with
the iteration count advanced, exactly when the first ends normally. -/
theorem convertMultiLoop_append (env : Env) (req : Request) (xs ys : List UploadedFile) :
    ∀ (k : Nat) (urls : List String) (w : World),
      convertMultiLoop env req k (xs ++ ys) urls w =
        match convertMultiLoop env req k xs urls w with
        | (some urls1, w1) => convertMultiLoop env req (k + xs.length) ys urls1 w1
        | (none, w1) => (none, w1) := by
  induction xs with
  | nil => intro k urls w; simp [convertMultiLoop]
  | cons x xs ih =>
    intro k urls w
    simp only [List.cons_append, convertMultiLoop, List.length_cons]
    split
    · rfl
    · split
      · rfl
      · rw [show k + (xs.length + 1) = k + 1 + xs.length by omega]
        exact ih _ _ _

/-- The loop reads the request only through the codec invocation it builds. -/
theorem convertMultiLoop_congr (env : Env) (req req2 : Request)
    (h : ∀ t f, codecCall req t f = codecCall req2 t f) (files : List UploadedFile) :
    ∀ (k : Nat) (urls : List String) (w : World),
      convertMultiLoop env req k files urls w = convertMultiLoop env req2 k files urls w := by
  induction files with
  | nil => intro k urls w; rfl
  | cons f rest ih =>
    intro k urls w
    simp only [convertMultiLoop, h, ih]

theorem staged_of_files_eq (env : Env) (w w0 : World) (files : List UploadedFile)
    (hfiles : w0.files = w.files) (h : Staged env w files) : Staged env w0 files := by
  unfold Staged at *
  rw [hfiles]
  exact h

/-- A batch of staged files whose codec calls all resolve, with the store
ready: the handler answers with the expected locations and has made the
expected codec invocations. -/
theorem convertMulti_valid (env : Env) (w : World) (req : Request) (hready : StoreReady env w)
    (hst : Staged env w req.files) (hconv : AllConvertible env req 0 req.files) :
    (convertMulti env w req).1 = multiSuccess (expectedUrls env 0 req.files) ∧
      (convertMulti env w req).2.calls = w.calls ++ expectedCalls env req 0 req.files := by
  obtain ⟨w0, hw0⟩ := mkdirSync_ready env w hready
  obtain ⟨hf0, hc0, -⟩ := mkdirSync_some env w w0 "converted" hw0
  obtain ⟨w1, hw1, hc1⟩ := convertMultiLoop_valid env req req.files 0 [] w0
    (staged_of_files_eq env w w0 req.files hf0 hst) hconv
  unfold convertMulti
  rw [hw0]
  simp only [hw1]
  simp [hc1, hc0]

theorem mkdirSync_not_ready (env : Env) (w : World) (h : ¬ StoreReady env w) :
    mkdirSync env w "converted" = none := by
  unfold StoreReady at h
  unfold mkdirSync
  by_cases hf : "converted" ∈ w.files
  · rw [if_pos hf]
  · rw [if_neg hf]
    by_cases hd : "converted" ∈ w.dirs
    · exact absurd ⟨hf, Or.inl hd⟩ h
    · rw [if_neg hd]
      by_cases hk : env.mkdirOk "converted" = true
      · exact absurd ⟨hf, Or.inr hk⟩ h
      · rw [if_neg hk]
/-! ## The loop of `DELETE /clean` -/

theorem entryName_unique (dir p q name : String) (hp : entryName dir p = some name)
    (hq : entryName dir q = some name) : q = p := by
  rw [← pathJoin_entryName dir p name hp, ← pathJoin_entryName dir q name hq]

/-- Removing a listed file removes its name from the listing. -/
theorem filterMap_entryName_erase (dir p name : String) (hp : entryName dir p = some name) :
    ∀ files : List String,
      (files.erase p).filterMap (entryName dir) = (files.filterMap (entryName dir)).erase name := by
  intro files
  induction files with
  | nil => rfl
  | cons q rest ih =>
    by_cases hqp : q = p
    · subst hqp
      simp [List.filterMap_cons, hp]
    · rw [List.erase_cons_tail (by simpa using hqp)]
      cases hq : entryName dir q with
      | none => simp only [List.filterMap_cons, hq, ih]
      | some m =>
        have hmn : m ≠ name := by
          intro h
          subst h
          exact hqp (entryName_unique dir p q m hp hq)
        simp only [List.filterMap_cons, hq, ih]
        rw [List.erase_cons_tail (by simpa using hmn)]

/-- Removing a listed file leaves the files that are not listed as they are. -/
theorem filter_unlisted_erase (dir p name : String) (hp : entryName dir p = some name) :
    ∀ files : List String,
      (files.erase p).filter (fun q => (entryName dir q).isNone) =
        files.filter (fun q => (entryName dir q).isNone) := by
  intro files
  induction files with
  | nil => rfl
  | cons q rest ih =>
    by_cases hqp : q = p
    · subst hqp
      simp [List.filter_cons, hp]
    · rw [List.erase_cons_tail (by simpa using hqp)]
      simp only [List.filter_cons, ih]

/-- Removing the files of a listing, in whatever order the listing has them:
when the listing is a rearrangement of the names of the listed files and each
removal is permitted, the loop ends normally and exactly the listed files are
gone. -/
theorem unlinkAll_perm (env : Env) (dir : String) (dirs : List String)
    (calls : List CodecCall) :
    ∀ (listing files : List String), listing.Perm (files.filterMap (entryName dir)) →
      (∀ p ∈ files, entryName dir p ≠ none → env.unlinkOk p = true) →
      unlinkAll env dir listing { dirs := dirs, files := files, calls := calls } =
        (true, { dirs := dirs
                 files := files.filter (fun p => (entryName dir p).isNone)
                 calls := calls }) := by
  intro listing
  induction listing with
  | nil =>
    intro files hperm _
    have hnil : files.filterMap (entryName dir) = [] := List.Perm.eq_nil (List.Perm.symm hperm)
    have hall : files.filter (fun p => (entryName dir p).isNone) = files := by
      rw [List.filter_eq_self]
      intro p hp
      cases hn : entryName dir p with
      | none => rfl
      | some name =>
        have : name ∈ files.filterMap (entryName dir) := List.mem_filterMap.2 ⟨p, hp, hn⟩
        rw [hnil] at this
        exact absurd this (by simp)
    simp [unlinkAll, hall]
  | cons name rest ih =>
    intro files hperm hok
    have hmem : name ∈ files.filterMap (entryName dir) :=
      (List.Perm.mem_iff hperm).1 (by simp)
    obtain ⟨p, hpmem, hp⟩ := List.mem_filterMap.1 hmem
    have hjoin := pathJoin_entryName dir p name hp
    have hperm2 : rest.Perm ((files.erase p).filterMap (entryName dir)) := by
      rw [filterMap_entryName_erase dir p name hp files]
      have := List.Perm.erase name hperm
      simpa using this
    have hok2 : ∀ q ∈ files.erase p, entryName dir q ≠ none → env.unlinkOk q = true :=
      fun q hq => hok q (List.mem_of_mem_erase hq)
    have hpok : env.unlinkOk p = true := hok p hpmem (by simp [hp])
    have h1 := ih (files.erase p) hperm2 hok2
    rw [filter_unlisted_erase dir p name hp files] at h1
    simp only [unlinkAll, unlinkSync, hjoin, hpmem, hpok, and_self, if_true]
    exact h1

theorem filterMap_entryName_eq_nil (dir : String) (l : List String)
    (h : ∀ p ∈ l, entryName dir p = none) : l.filterMap (entryName dir) = [] := by
  induction l with
  | nil => rfl
  | cons p l ih =>
    simp [List.filterMap_cons, h p (by simp), ih (fun q hq => h q (by simp [hq]))]

theorem sortNames_perm (names : List String) : (sortNames names).Perm names :=
  List.perm_insertionSort _ names

/-- The purge of an existing store without subdirectories, when every removal
is permitted: success, and exactly the listed files are gone. -/
theorem clean_flat (env : Env) (w : World) (hdir : "converted" ∈ w.dirs)
    (hflat : ∀ d ∈ w.dirs, entryName "converted" d = none)
    (hok : ∀ p ∈ w.files, entryName "converted" p ≠ none → env.unlinkOk p = true) :
    clean env w =
      ({ status := 200,
         body := [("success", Json.bool true),
                  ("message", Json.str "Converted folder cleaned")] },
       { dirs := w.dirs
         files := w.files.filter (fun p => (entryName "converted" p).isNone)
         calls := w.calls }) := by
  have hex : existsSync w "converted" = true := by simp [existsSync, hdir]
  have hlist : readdirSync w "converted" =
      some (sortNames (w.files.filterMap (entryName "converted"))) := by
    simp [readdirSync, hdir, List.filterMap_append, filterMap_entryName_eq_nil _ _ hflat]
  have hloop := unlinkAll_perm env "converted" w.dirs w.calls
    (sortNames (w.files.filterMap (entryName "converted"))) w.files (sortNames_perm _) hok
  simp only [clean, hex, hlist, Bool.not_true, Bool.false_eq_true, if_false, hloop]
/-! ## Partial failure of a batch -/

/-- C1, counterexample: the batch `a.png`, `bad.png`, `c.png`, whose second
image is corrupt, is answered by the single error `Multi conversion failed`
with no list of outcomes; the codec was invoked twice only, and the store
holds the artifact of `a.png` alone: `c.png` was neither transformed, written
nor reported. -/
theorem convertMulti_corrupt_item_not_isolated :
    (convertMulti strictEnv stagedWorld (batchOf [fileA, fileBad, fileC] "300")).1 =
        multiFailure ∧
      (convertMulti strictEnv stagedWorld (batchOf [fileA, fileBad, fileC] "300")).1.body.lookup
        "urls" = none ∧
      (convertMulti strictEnv stagedWorld (batchOf [fileA, fileBad, fileC] "300")).2.calls.length
        = 2 ∧
      readdirSync (convertMulti strictEnv stagedWorld (batchOf [fileA, fileBad, fileC] "300")).2
        "converted" = some ["1700000000000-a.png.webp"] := by
  decide

/-- C1, amended: with the store ready, in a batch whose items before a corrupt
one are staged and convertible, the failure of the corrupt item's codec call
aborts the batch. The
handler answers 500 `Multi conversion failed`; the codec has been invoked for
the items up to and including the corrupt one and for none after it; and the
store is left as the batch of the preceding items alone leaves it, a batch
which is answered with their locations. -/
theorem convertMulti_corrupt_item_aborts (env : Env) (w : World) (req : Request)
    (pre post : List UploadedFile) (bad : UploadedFile)
    (hfiles : req.files = pre ++ bad :: post) (hready : StoreReady env w)
    (hst : Staged env w pre) (hconv : AllConvertible env req 0 pre)
    (hbad : env.sharp (codecCall req (env.now pre.length) bad) = false) :
    (convertMulti env w req).1 = multiFailure ∧
      (convertMulti env w req).2.calls =
        w.calls ++ expectedCalls env req 0 pre ++ [codecCall req (env.now pre.length) bad] ∧
      (convertMulti env w { req with files := pre }).1 = multiSuccess (expectedUrls env 0 pre) ∧
      readdirSync (convertMulti env w req).2 "converted" =
        readdirSync (convertMulti env w { req with files := pre }).2 "converted" := by
  obtain ⟨w0, hw0⟩ := mkdirSync_ready env w hready
  obtain ⟨hf0, hc0, -⟩ := mkdirSync_some env w w0 "converted" hw0
  obtain ⟨w1, hw1, hc1⟩ := convertMultiLoop_valid env req pre 0 [] w0
    (staged_of_files_eq env w w0 pre hf0 hst) hconv
  have hpre : convertMultiLoop env { req with files := pre } 0 pre [] w0 =
      (some ([] ++ expectedUrls env 0 pre), w1) := by
    rw [← hw1]
    exact convertMultiLoop_congr env { req with files := pre } req (fun _ _ => rfl) pre 0 [] _
  have hall : convertMultiLoop env req 0 (pre ++ bad :: post) [] w0 =
      (none, { w1 with calls := w1.calls ++ [codecCall req (env.now pre.length) bad] }) := by
    rw [convertMultiLoop_append, hw1]
    simp only [Nat.zero_add]
    exact convertMultiLoop_cons_fail env req pre.length bad post _ w1 hbad
  simp only [convertMulti, hw0, hfiles, hall, hpre, List.nil_append, hc1, hc0]
  simp [readdirSync]

/-- C1, amended, at a concrete batch: `a.png`, the corrupt `bad.png`, `c.png`. -/
theorem convertMulti_corrupt_item_aborts_witness :
    StoreReady strictEnv stagedWorld ∧ Staged strictEnv stagedWorld [fileA] ∧
      AllConvertible strictEnv (batchOf [fileA, fileBad, fileC] "300") 0 [fileA] ∧
      strictEnv.sharp (codecCall (batchOf [fileA, fileBad, fileC] "300")
        (strictEnv.now [fileA].length) fileBad) = false ∧
      ((convertMulti strictEnv stagedWorld (batchOf [fileA, fileBad, fileC] "300")).1 =
          multiFailure ∧
        (convertMulti strictEnv stagedWorld (batchOf [fileA, fileBad, fileC] "300")).2.calls =
          stagedWorld.calls ++
            expectedCalls strictEnv (batchOf [fileA, fileBad, fileC] "300") 0 [fileA] ++
            [codecCall (batchOf [fileA, fileBad, fileC] "300") (strictEnv.now [fileA].length)
              fileBad] ∧
        (convertMulti strictEnv stagedWorld
            { batchOf [fileA, fileBad, fileC] "300" with files := [fileA] }).1 =
          multiSuccess (expectedUrls strictEnv 0 [fileA]) ∧
        readdirSync (convertMulti strictEnv stagedWorld
            (batchOf [fileA, fileBad, fileC] "300")).2 "converted" =
          readdirSync (convertMulti strictEnv stagedWorld
            { batchOf [fileA, fileBad, fileC] "300" with files := [fileA] }).2 "converted") :=
  have hready : StoreReady strictEnv stagedWorld := by
    unfold StoreReady
    decide
  have hst : Staged strictEnv stagedWorld [fileA] := by
    unfold Staged
    decide
  have hconv : AllConvertible strictEnv (batchOf [fileA, fileBad, fileC] "300") 0 [fileA] := by
    intro i f h
    cases i with
    | zero =>
      simp at h
      subst h
      decide
    | succ i => simp at h
  have hbad : strictEnv.sharp (codecCall (batchOf [fileA, fileBad, fileC] "300")
      (strictEnv.now [fileA].length) fileBad) = false := by decide
  ⟨hready, hst, hconv, hbad,
    convertMulti_corrupt_item_aborts strictEnv stagedWorld (batchOf [fileA, fileBad, fileC] "300")
      [fileA] [fileC] fileBad rfl hready hst hconv hbad⟩

/-! ## Positional correlation of a successful batch -/

/-- C2, counterexample: for the batch `a.png`, `c.png` every codec call
resolves and the artifact of `a.png` is written to the store, but the removal
of its temporary upload throws; the handler answers with the error
`Multi conversion failed` and returns no `urls` at all. -/
theorem convertMulti_valid_batch_without_urls :
    lockedUploadsEnv.sharp
        (codecCall (batchOf [fileA, fileC] "300") (lockedUploadsEnv.now 0) fileA) = true ∧
      lockedUploadsEnv.sharp
        (codecCall (batchOf [fileA, fileC] "300") (lockedUploadsEnv.now 1) fileC) = true ∧
      outputPath (lockedUploadsEnv.now 0) fileA.originalname ∈
        (convertMulti lockedUploadsEnv stagedWorld (batchOf [fileA, fileC] "300")).2.files ∧
      (convertMulti lockedUploadsEnv stagedWorld (batchOf [fileA, fileC] "300")).1 =
        multiFailure ∧
      (convertMulti lockedUploadsEnv stagedWorld (batchOf [fileA, fileC] "300")).1.body.lookup
        "urls" = none := by
  decide

/-- C2, amended: for a batch of valid images (every codec call resolves) whose
temporary uploads are staged (each present under a path of its own, and
removable) and with the store ready, the handler answers
`{ success: true, urls }` where `urls` has the length of the input and, for
every index `i`, `urls[i]` is the location built from the clock reading of
iteration `i` and the `originalname` of input `i`; the `i`-th codec invocation
of the call is the one that reads input `i` and writes that artifact. -/
theorem convertMulti_valid_batch_positional (env : Env) (w : World) (req : Request)
    (hready : StoreReady env w) (hst : Staged env w req.files)
    (hconv : AllConvertible env req 0 req.files) :
    ∃ urls : List String,
      (convertMulti env w req).1 = multiSuccess urls ∧
      urls.length = req.files.length ∧
      (∀ (i : Nat) (f : UploadedFile), req.files[i]? = some f →
        urls[i]? = some (outputUrl (outputPath (env.now i) f.originalname))) ∧
      (∀ (i : Nat) (f : UploadedFile), req.files[i]? = some f →
        (convertMulti env w req).2.calls[w.calls.length + i]? =
          some { input := f.path
                 width := dimension req.width
                 height := dimension req.height
                 fit := fit req.crop
                 output := outputPath (env.now i) f.originalname }) := by
  obtain ⟨hresp, hcalls⟩ := convertMulti_valid env w req hready hst hconv
  refine ⟨expectedUrls env 0 req.files, hresp, expectedUrls_length env req.files 0, ?_, ?_⟩
  · intro i f hf
    have := expectedUrls_getElem? env req.files 0 i f hf
    rw [Nat.zero_add] at this
    exact this
  · intro i f hf
    have := expectedCalls_getElem? env req req.files 0 i f hf
    rw [Nat.zero_add] at this
    rw [hcalls, List.getElem?_append_right (by omega)]
    simp only [Nat.add_sub_cancel_left, this]
    rfl

/-- C2, amended, at a concrete batch: `a.png` and `c.png`, both valid. -/
theorem convertMulti_valid_batch_positional_witness :
    StoreReady strictEnv stagedWorld ∧
      Staged strictEnv stagedWorld (batchOf [fileA, fileC] "300").files ∧
      AllConvertible strictEnv (batchOf [fileA, fileC] "300") 0
        (batchOf [fileA, fileC] "300").files ∧
      ∃ urls : List String,
        (convertMulti strictEnv stagedWorld (batchOf [fileA, fileC] "300")).1 =
          multiSuccess urls ∧
        urls.length = (batchOf [fileA, fileC] "300").files.length ∧
        (∀ (i : Nat) (f : UploadedFile), (batchOf [fileA, fileC] "300").files[i]? = some f →
          urls[i]? = some (outputUrl (outputPath (strictEnv.now i) f.originalname))) ∧
        (∀ (i : Nat) (f : UploadedFile), (batchOf [fileA, fileC] "300").files[i]? = some f →
          (convertMulti strictEnv stagedWorld (batchOf [fileA, fileC] "300")).2.calls[
              stagedWorld.calls.length + i]? =
            some { input := f.path
                   width := dimension (batchOf [fileA, fileC] "300").width
                   height := dimension (batchOf [fileA, fileC] "300").height
                   fit := fit (batchOf [fileA, fileC] "300").crop
                   output := outputPath (strictEnv.now i) f.originalname }) :=
  have hready : StoreReady strictEnv stagedWorld := by
    unfold StoreReady
    decide
  have hst : Staged strictEnv stagedWorld (batchOf [fileA, fileC] "300").files := by
    unfold Staged
    decide
  have hconv : AllConvertible strictEnv (batchOf [fileA, fileC] "300") 0
      (batchOf [fileA, fileC] "300").files := by
    intro i f h
    have hfiles : (batchOf [fileA, fileC] "300").files = [fileA, fileC] := rfl
    rw [hfiles] at h
    match i, h with
    | 0, h =>
      simp at h
      subst h
      decide
    | 1, h =>
      simp at h
      subst h
      decide
    | n + 2, h => simp at h
  ⟨hready, hst, hconv,
    convertMulti_valid_batch_positional strictEnv stagedWorld (batchOf [fileA, fileC] "300")
      hready hst hconv⟩
/-! ## Names of the outputs -/

/-- C3, counterexample: with a clock that is non-decreasing and returns the
same millisecond for two consecutive items, two uploads both named `a.png`
get the same output path, so both reported locations are one and the same and
the store holds a single artifact for the two items. -/
theorem outputPath_collision_same_millisecond :
    Monotone sameMillisecondEnv.now ∧
      (codecCall (batchOf [fileA, fileA2] "") (sameMillisecondEnv.now 0) fileA).output =
        (codecCall (batchOf [fileA, fileA2] "") (sameMillisecondEnv.now 1) fileA2).output ∧
      (convertMulti sameMillisecondEnv stagedWorld (batchOf [fileA, fileA2] "")).1 =
        multiSuccess ["http://localhost:5009/converted/1700000000000-a.png.webp",
          "http://localhost:5009/converted/1700000000000-a.png.webp"] ∧
      readdirSync (convertMulti sameMillisecondEnv stagedWorld (batchOf [fileA, fileA2] "")).2
        "converted" = some ["1700000000000-a.png.webp"] :=
  ⟨fun _ _ _ => Nat.le_refl _, by decide, by decide, by decide⟩

/-- C3, amended: for two items of a batch with the identical `originalname`,
handled at iterations `i` and `j`, the output paths computed for them are
different exactly when the clock readings of the two iterations are different
(and coincide when the readings are equal). -/
theorem outputPath_distinct_iff_clock_distinct (env : Env) (req : Request) (i j : Nat)
    (f g : UploadedFile) (hname : f.originalname = g.originalname) :
    (codecCall req (env.now i) f).output ≠ (codecCall req (env.now j) g).output ↔
      env.now i ≠ env.now j := by
  show outputPath (env.now i) f.originalname ≠ outputPath (env.now j) g.originalname ↔ _
  rw [hname]
  constructor
  · intro h heq
    exact h (by rw [heq])
  · intro h heq
    exact h (outputPath_injective _ _ _ heq)

/-- C3, amended, at a concrete batch: two uploads named `a.png` handled one
millisecond apart. -/
theorem outputPath_distinct_iff_clock_distinct_witness :
    fileA.originalname = fileA2.originalname ∧
      ((codecCall (batchOf [fileA, fileA2] "") (strictEnv.now 0) fileA).output ≠
          (codecCall (batchOf [fileA, fileA2] "") (strictEnv.now 1) fileA2).output ↔
        strictEnv.now 0 ≠ strictEnv.now 1) :=
  ⟨rfl, outputPath_distinct_iff_clock_distinct strictEnv (batchOf [fileA, fileA2] "") 0 1
    fileA fileA2 rfl⟩

/-! ## Release of the temporary uploads -/

/-- C4, the code at a failing input: after the batch `a.png`, `bad.png`,
`c.png` has been answered (by the error response), the temporary upload of the
corrupt item and that of the item after it are still in the uploads area; only
the upload of the first item has been released. -/
theorem convertMulti_failure_leaves_uploads :
    (convertMulti strictEnv stagedWorld (batchOf [fileA, fileBad, fileC] "300")).1 =
        multiFailure ∧
      fileA.path ∉
        (convertMulti strictEnv stagedWorld (batchOf [fileA, fileBad, fileC] "300")).2.files ∧
      fileBad.path ∈
        (convertMulti strictEnv stagedWorld (batchOf [fileA, fileBad, fileC] "300")).2.files ∧
      fileC.path ∈
        (convertMulti strictEnv stagedWorld (batchOf [fileA, fileBad, fileC] "300")).2.files := by
  decide

/-! ## Requests that the handler does not validate -/

/-- C5, counterexample: an empty item list is answered by the success response
`{ success: true, urls: [] }` with status 200, and the handler has created the
directory `converted`, which did not exist before. -/
theorem convertMulti_empty_batch_not_rejected :
    (convertMulti strictEnv stagedWorld (batchOf [] "")).1 = multiSuccess [] ∧
      (convertMulti strictEnv stagedWorld (batchOf [] "")).1.status = 200 ∧
      "converted" ∉ stagedWorld.dirs ∧
      "converted" ∈ (convertMulti strictEnv stagedWorld (batchOf [] "")).2.dirs := by
  decide

/-- C5, amended: when the item list is empty the handler does not reject the
request for that. It first makes sure that the directory `converted` exists.
With the store ready (`converted` is no regular file and exists or may be
created) it answers `{ success: true, urls: [] }`, and the directory is there;
no codec is invoked and no file is written or removed. Otherwise the failure of
`fs.mkdirSync` is answered by the error `Multi conversion failed`, and nothing
has changed. -/
theorem convertMulti_empty_batch (env : Env) (w : World) (req : Request)
    (hfiles : req.files = []) :
    (StoreReady env w →
        (convertMulti env w req).1 = multiSuccess [] ∧
        "converted" ∈ (convertMulti env w req).2.dirs ∧
        (convertMulti env w req).2.files = w.files ∧
        (convertMulti env w req).2.calls = w.calls) ∧
      (¬ StoreReady env w → convertMulti env w req = (multiFailure, w)) := by
  constructor
  · intro hready
    obtain ⟨w0, hw0⟩ := mkdirSync_ready env w hready
    obtain ⟨hf0, hc0, hd0⟩ := mkdirSync_some env w w0 "converted" hw0
    have h : convertMulti env w req = (multiSuccess [], w0) := by
      simp [convertMulti, hw0, hfiles, convertMultiLoop]
    rw [h]
    exact ⟨rfl, hd0, hf0, hc0⟩
  · intro hnot
    simp [convertMulti, mkdirSync_not_ready env w hnot]

/-- C5, amended, at a concrete request without files. -/
theorem convertMulti_empty_batch_witness :
    (batchOf [] "").files = [] ∧ StoreReady strictEnv stagedWorld ∧
      (convertMulti strictEnv stagedWorld (batchOf [] "")).1 = multiSuccess [] ∧
      "converted" ∈ (convertMulti strictEnv stagedWorld (batchOf [] "")).2.dirs ∧
      (convertMulti strictEnv stagedWorld (batchOf [] "")).2.files = stagedWorld.files ∧
      (convertMulti strictEnv stagedWorld (batchOf [] "")).2.calls = stagedWorld.calls :=
  have hready : StoreReady strictEnv stagedWorld := by
    unfold StoreReady
    decide
  ⟨rfl, hready, (convertMulti_empty_batch strictEnv stagedWorld (batchOf [] "") rfl).1 hready⟩

/-- C6, counterexample: for the batch `a.png`, `c.png` with `width = "-5"` the
handler first creates the directory `converted` and then invokes the codec for
`a.png` with the width `-5`; the codec's refusal is answered by the error
`Multi conversion failed`. -/
theorem convertMulti_nonpositive_width_reaches_codec :
    (convertMulti strictEnv stagedWorld (batchOf [fileA, fileC] "-5")).2.calls =
        [{ input := "uploads/a"
           width := JSValue.num (-5)
           height := JSValue.null
           fit := "cover"
           output := "converted/1700000000000-a.png.webp" }] ∧
      (convertMulti strictEnv stagedWorld (batchOf [fileA, fileC] "-5")).1 = multiFailure ∧
      "converted" ∉ stagedWorld.dirs ∧
      "converted" ∈ (convertMulti strictEnv stagedWorld (batchOf [fileA, fileC] "-5")).2.dirs := by
  decide

/-- C6, amended: for a non-empty batch whose width or height parses to a
non-positive integer the handler does no validation of its own: with the store
ready, it makes sure that the directory `converted` exists and then invokes the
codec for the first item with that dimension. When the codec refuses such
calls, the handler answers 500 `Multi conversion failed`, that invocation is
the only one made, and the store holds the files it held before: no output is
written. -/
theorem convertMulti_nonpositive_dimension (env : Env) (w : World) (req : Request)
    (f : UploadedFile) (rest : List UploadedFile) (hfiles : req.files = f :: rest)
    (hready : StoreReady env w)
    (hdim : isNonPositive (dimension req.width) = true ∨
      isNonPositive (dimension req.height) = true)
    (hcodec : ∀ c : CodecCall,
      isNonPositive c.width = true ∨ isNonPositive c.height = true → env.sharp c = false) :
    (convertMulti env w req).1 = multiFailure ∧
      (convertMulti env w req).2.calls = w.calls ++ [codecCall req (env.now 0) f] ∧
      (isNonPositive (codecCall req (env.now 0) f).width = true ∨
        isNonPositive (codecCall req (env.now 0) f).height = true) ∧
      "converted" ∈ (convertMulti env w req).2.dirs ∧
      (∀ p : String, entryName "converted" p ≠ none →
        (p ∈ (convertMulti env w req).2.files ↔ p ∈ w.files)) := by
  obtain ⟨w0, hw0⟩ := mkdirSync_ready env w hready
  obtain ⟨hf0, hc0, hd0⟩ := mkdirSync_some env w w0 "converted" hw0
  have hfail : env.sharp (codecCall req (env.now 0) f) = false := hcodec _ hdim
  have hloop := convertMultiLoop_cons_fail env req 0 f rest [] w0 hfail
  have heq : convertMulti env w req =
      (multiFailure, { w0 with calls := w0.calls ++ [codecCall req (env.now 0) f] }) := by
    simp only [convertMulti, hw0, hfiles, hloop]
  rw [heq]
  refine ⟨rfl, by simp only [hc0], hdim, hd0, ?_⟩
  intro p _
  simp only [hf0]

/-- C6, amended, at a concrete batch with `width = "-5"`. -/
theorem convertMulti_nonpositive_dimension_witness :
    (batchOf [fileA, fileC] "-5").files = fileA :: [fileC] ∧
      StoreReady strictEnv stagedWorld ∧
      (isNonPositive (dimension (batchOf [fileA, fileC] "-5").width) = true ∨
        isNonPositive (dimension (batchOf [fileA, fileC] "-5").height) = true) ∧
      (∀ c : CodecCall, isNonPositive c.width = true ∨ isNonPositive c.height = true →
        strictEnv.sharp c = false) ∧
      ((convertMulti strictEnv stagedWorld (batchOf [fileA, fileC] "-5")).1 = multiFailure ∧
        (convertMulti strictEnv stagedWorld (batchOf [fileA, fileC] "-5")).2.calls =
          stagedWorld.calls ++
            [codecCall (batchOf [fileA, fileC] "-5") (strictEnv.now 0) fileA] ∧
        (isNonPositive (codecCall (batchOf [fileA, fileC] "-5") (strictEnv.now 0) fileA).width
            = true ∨
          isNonPositive (codecCall (batchOf [fileA, fileC] "-5") (strictEnv.now 0) fileA).height
            = true) ∧
        "converted" ∈ (convertMulti strictEnv stagedWorld (batchOf [fileA, fileC] "-5")).2.dirs ∧
        (∀ p : String, entryName "converted" p ≠ none →
          (p ∈ (convertMulti strictEnv stagedWorld (batchOf [fileA, fileC] "-5")).2.files ↔
            p ∈ stagedWorld.files))) :=
  have hready : StoreReady strictEnv stagedWorld := by
    unfold StoreReady
    decide
  have hdim : isNonPositive (dimension (batchOf [fileA, fileC] "-5").width) = true ∨
      isNonPositive (dimension (batchOf [fileA, fileC] "-5").height) = true :=
    Or.inl (by decide)
  have hcodec : ∀ c : CodecCall, isNonPositive c.width = true ∨ isNonPositive c.height = true →
      strictEnv.sharp c = false := by
    intro c hc
    have hacc : ∀ v : JSValue, isNonPositive v = true → acceptsDimension v = false := by
      intro v hv
      cases v with
      | num x =>
        simp only [isNonPositive, decide_eq_true_eq] at hv
        simp only [acceptsDimension, decide_eq_false_iff_not]
        omega
      | null => simp [isNonPositive] at hv
      | nan => simp [isNonPositive] at hv
      | inf b => simp [isNonPositive] at hv
    rcases hc with hc | hc
    · simp [strictEnv, hacc _ hc]
    · simp [strictEnv, hacc _ hc]
  ⟨rfl, hready, hdim, hcodec,
    convertMulti_nonpositive_dimension strictEnv stagedWorld (batchOf [fileA, fileC] "-5")
      fileA [fileC] rfl hready hdim hcodec⟩
/-! ## The dimension fields -/

/-- C7, counterexample: the unparseable field `"abc"` yields `NaN`, which is
not the absent value `null`; and the decimal positive integer string
`"9007199254740993"` yields `9007199254740992`, not that integer. -/
theorem dimension_unparseable_is_nan :
    dimension (some "abc") = JSValue.nan ∧ dimension (some "abc") ≠ JSValue.null ∧
      dimension (some "9007199254740993") = JSValue.num 9007199254740992 := by
  decide

/-- C7, amended: the dimension computed by `field ? parseInt(field) : null` is
`null` when the field is missing or empty; it is `NaN` when the field is a
non-empty string whose first character is neither white space, nor a sign, nor
a decimal digit (such as `"abc"`); and it is exactly `n` when the field is the
decimal representation of a positive integer `n` below `2^53`. -/
theorem dimension_of_field :
    dimension none = JSValue.null ∧ dimension (some "") = JSValue.null ∧
      (∀ (c : Char) (cs : List Char), isWhiteSpace c = false → c ≠ '-' → c ≠ '+' →
        radixDigit 10 c = none → dimension (some (String.mk (c :: cs))) = JSValue.nan) ∧
      (∀ n : Nat, 0 < n → n < 2 ^ 53 → dimension (some (toString n)) = JSValue.num (n : Int)) := by
  refine ⟨rfl, rfl, ?_, ?_⟩
  · intro c cs hws hminus hplus hdigit
    have hne : String.mk (c :: cs) ≠ "" := by
      intro h
      have := congrArg String.data h
      simp at this
    have hzero : c ≠ '0' := by
      intro h
      rw [h] at hdigit
      revert hdigit
      decide
    have hdrop : List.dropWhile isWhiteSpace (c :: cs) = c :: cs := by
      simp [List.dropWhile_cons, hws]
    have hsign : stripSign (c :: cs) = (false, c :: cs) := by
      simp [stripSign, hminus, hplus]
    have hstrip : chooseRadix (c :: cs) = (10, c :: cs) := by
      cases cs with
      | nil => rfl
      | cons b cs => simp [chooseRadix, hzero]
    have htake : takeDigits 10 (c :: cs) = [] := by
      simp [takeDigits, hdigit]
    simp only [dimension, hne, if_false, parseInt, hdrop, hsign, hstrip, htake, if_true]
  · intro n _ hlt
    have hne : toString n ≠ "" := by
      intro h
      obtain ⟨ds, hds, _, _, heq⟩ := toString_spec n
      rw [h] at heq
      cases ds with
      | nil => exact hds rfl
      | cons d ds => simp at heq
    simp only [dimension, hne, if_false, parseInt_toString, toNumber_exact n hlt]

/-- C7, amended, at the fields `"abc"` and `"300"`. -/
theorem dimension_of_field_witness :
    dimension (some (String.mk ('a' :: ['b', 'c']))) = JSValue.nan ∧
      dimension (some (toString 300)) = JSValue.num 300 :=
  ⟨dimension_of_field.2.2.1 'a' ['b', 'c'] (by decide) (by decide) (by decide) (by decide),
    dimension_of_field.2.2.2 300 (by decide) (by decide)⟩

/-! ## Safety of the output names -/

/-- C8: for every item of a batch, as multer hands it over (its `originalname`
is a base name, cut after the last `/` or `\\` of the name sent), and every
clock reading, the output path computed by the handler is the entry
`<Date.now()>-<originalname>.webp` of the flat directory `converted`: that name
is not empty, is neither `.` nor `..`, and contains neither `/` nor `\`, so the
path denotes no location in a subdirectory or outside the directory. -/
theorem outputPath_inside_converted (req : Request) (now : Nat) (file : UploadedFile) :
    (codecCall req now file).output =
        pathJoin "converted" (toString now ++ "-" ++ file.originalname ++ ".webp") ∧
      entryName "converted" (codecCall req now file).output =
        some (toString now ++ "-" ++ file.originalname ++ ".webp") ∧
      (∀ c ∈ (toString now ++ "-" ++ file.originalname ++ ".webp").data,
        isNameSeparator c = false) := by
  have he := outputPath_entryName now file.originalname (originalname_no_separator file)
  exact ⟨(pathJoin_entryName _ _ _ he).symm, he, outputName_no_nameSeparator now file⟩

/-! ## Purge of the store -/

/-- C9, counterexample: on a world without the directory `converted` the purge
answers `{ success: true, message: "Nothing to clean" }`, and on an empty store
`{ success: true, message: "Converted folder cleaned" }`; neither response has
a field `deletedCount`. -/
theorem clean_reports_no_count :
    (clean strictEnv stagedWorld).1 =
        { status := 200
          body := [("success", Json.bool true), ("message", Json.str "Nothing to clean")] } ∧
      (clean strictEnv stagedWorld).1.body.lookup "deletedCount" = none ∧
      (clean strictEnv emptyStoreWorld).1 =
        { status := 200
          body := [("success", Json.bool true),
                   ("message", Json.str "Converted folder cleaned")] } ∧
      (clean strictEnv emptyStoreWorld).1.body.lookup "deletedCount" = none := by
  decide

/-- C9, amended: on a store that does not exist, or that exists and lists
nothing, the purge does not fail: it answers with status 200, `success: true`
and a message (`Nothing to clean` for a missing store, `Converted folder
cleaned` for an empty one) and leaves the world unchanged; running it a second
time gives the same response and the same world. -/
theorem clean_absent_or_empty (env : Env) (w : World)
    (h : existsSync w "converted" = false ∨ readdirSync w "converted" = some []) :
    (clean env w).1 =
        { status := 200
          body := [("success", Json.bool true),
                   ("message", Json.str (if existsSync w "converted" = true
                     then "Converted folder cleaned" else "Nothing to clean"))] } ∧
      (clean env w).2 = w ∧
      clean env (clean env w).2 = clean env w := by
  have hclean : clean env w =
      ({ status := 200
         body := [("success", Json.bool true),
                  ("message", Json.str (if existsSync w "converted" = true
                    then "Converted folder cleaned" else "Nothing to clean"))] }, w) := by
    rcases h with h | h
    · simp [clean, h]
    · have hdir : "converted" ∈ w.dirs := by
        by_contra hn
        simp [readdirSync, hn] at h
      have hex : existsSync w "converted" = true := by simp [existsSync, hdir]
      simp [clean, hex, h, unlinkAll]
  rw [hclean]
  exact ⟨rfl, rfl, hclean⟩

/-- C9, amended, at a world without store and at a world with an empty one. -/
theorem clean_absent_or_empty_witness :
    existsSync stagedWorld "converted" = false ∧
      readdirSync emptyStoreWorld "converted" = some [] ∧
      (clean strictEnv stagedWorld).2 = stagedWorld ∧
      clean strictEnv (clean strictEnv emptyStoreWorld).2 = clean strictEnv emptyStoreWorld :=
  ⟨by decide, by decide,
    (clean_absent_or_empty strictEnv stagedWorld (Or.inl (by decide))).2.1,
    (clean_absent_or_empty strictEnv emptyStoreWorld (Or.inr (by decide))).2.2⟩

/-- C10: on a flat store (the directory `converted` exists, no directory lies
below it and every file below it lies directly in it), when the removal of
every file of the store is permitted, the purge answers
`{ success: true, message: "Converted folder cleaned" }`; afterwards the store
lists nothing and no file at all lies below `converted`, so every file that was
in the store is gone; a path that is not below `converted` names a file
afterwards exactly when it did before, and the directories are the same. -/
theorem clean_removes_every_artifact (env : Env) (w : World) (hflat : FlatStore w)
    (hok : ∀ p ∈ w.files, isBelow "converted" p = true → env.unlinkOk p = true) :
    (clean env w).1 =
        { status := 200
          body := [("success", Json.bool true),
                   ("message", Json.str "Converted folder cleaned")] } ∧
      readdirSync (clean env w).2 "converted" = some [] ∧
      (∀ p ∈ (clean env w).2.files, isBelow "converted" p = false) ∧
      (∀ p ∈ w.files, isBelow "converted" p = true → p ∉ (clean env w).2.files) ∧
      (∀ p : String, isBelow "converted" p = false →
        (p ∈ (clean env w).2.files ↔ p ∈ w.files)) ∧
      (clean env w).2.dirs = w.dirs := by
  obtain ⟨hdir, hdirs, hfiles⟩ := hflat
  have hflat2 : ∀ d ∈ w.dirs, entryName "converted" d = none :=
    fun d hd => entryName_eq_none_of_not_isBelow _ _ (hdirs d hd)
  have hok2 : ∀ p ∈ w.files, entryName "converted" p ≠ none → env.unlinkOk p = true := by
    intro p hp hne
    cases hn : entryName "converted" p with
    | none => exact absurd hn hne
    | some name => exact hok p hp (isBelow_of_entryName _ _ _ hn)
  have hgone : ∀ p ∈ w.files.filter (fun p => (entryName "converted" p).isNone),
      isBelow "converted" p = false := by
    intro p hp
    obtain ⟨hmem, hnone⟩ := List.mem_filter.1 hp
    cases hb : isBelow "converted" p with
    | false => rfl
    | true =>
      have := hfiles p hmem hb
      simp at hnone
      exact absurd hnone this
  rw [clean_flat env w hdir hflat2 hok2]
  refine ⟨rfl, ?_, hgone, ?_, ?_, rfl⟩
  · have hnil : sortNames ((w.files.filter (fun p => (entryName "converted" p).isNone) ++
        w.dirs).filterMap (entryName "converted")) = [] := by
      apply List.Perm.eq_nil
      refine List.Perm.trans (sortNames_perm _) ?_
      apply List.Perm.of_eq
      apply filterMap_entryName_eq_nil
      intro p hp
      rcases List.mem_append.1 hp with hp | hp
      · have := (List.mem_filter.1 hp).2
        simpa using this
      · exact hflat2 p hp
    simp only [readdirSync, hdir, if_true, hnil]
  · intro p _ hb hmem
    have := hgone p hmem
    rw [hb] at this
    exact absurd this (by simp)
  · intro p hb
    simp [List.mem_filter, entryName_eq_none_of_not_isBelow _ _ hb]

/-- C10 at a store holding two artifacts next to a staged upload. -/
theorem clean_removes_every_artifact_witness :
    FlatStore filledWorld ∧
      (∀ p ∈ filledWorld.files, isBelow "converted" p = true → strictEnv.unlinkOk p = true) ∧
      ((clean strictEnv filledWorld).1 =
          { status := 200
            body := [("success", Json.bool true),
                     ("message", Json.str "Converted folder cleaned")] } ∧
        readdirSync (clean strictEnv filledWorld).2 "converted" = some [] ∧
        (∀ p ∈ (clean strictEnv filledWorld).2.files, isBelow "converted" p = false) ∧
        (∀ p ∈ filledWorld.files, isBelow "converted" p = true →
          p ∉ (clean strictEnv filledWorld).2.files) ∧
        (∀ p : String, isBelow "converted" p = false →
          (p ∈ (clean strictEnv filledWorld).2.files ↔ p ∈ filledWorld.files)) ∧
        (clean strictEnv filledWorld).2.dirs = filledWorld.dirs) :=
  have hflat : FlatStore filledWorld := by
    unfold FlatStore
    decide
  ⟨hflat, fun _ _ _ => rfl,
    clean_removes_every_artifact strictEnv filledWorld hflat (fun _ _ _ => rfl)⟩

end WebpConverter
